import Mathlib

/-!
# Verification of the SurgScanVR inference post-processing pipeline

Shallow embedding of `AI_Backend/inference_app` (volume metrics, prediction
cache, mesh generation, Unity delivery client) with proofs of the claims the
specification makes about it.

Conventions of the embedding:
* Python float arithmetic is idealised as exact rational arithmetic (`ℚ`).
* Python `round(x, 2)` (banker rounding) is `round2`.
* Byte strings are `List ℕ` (each entry below 256 where it matters).
* The file system is a partial map from paths to byte contents.
* Mutation is explicit state passing; a Python function that can raise an
  uncaught exception returns an `Option` (`none` = the exception escaped).
-/

namespace SurgScan

/-! ## Rounding (Python `round`) -/

/-- Python `round(x)`: round to the nearest integer, ties to the even
integer (banker rounding). For non-ties this agrees with Mathlib `round`. -/
def pyRound (x : ℚ) : ℤ :=
  if Int.fract x = 1/2 then (if ⌊x⌋ % 2 = 0 then ⌊x⌋ else ⌊x⌋ + 1) else round x

/-- Python `round(x, 2)`: round to 2 decimal places. -/
def round2 (x : ℚ) : ℚ := (pyRound (100 * x) : ℚ) / 100

/-! ## Byte packing (`struct.pack`) -/

/-- `struct.pack` with format `!I`: the four big-endian bytes of an unsigned
32-bit integer. (Python raises for values at or above `2^32`; every value the
client packs is far below that, and we take the bytes of `n % 2^32`.) -/
def packU32 (n : ℕ) : List ℕ :=
  [n % 2^32 / 2^24, n % 2^24 / 2^16, n % 2^16 / 2^8, n % 2^8]

/-! ## File system and Python dicts -/

/-- A file-system snapshot: maps each path to the bytes of the file stored
there, `none` when no file exists at that path. -/
def FileSystem : Type := String → Option (List ℕ)

/-- Removing a file from a file-system snapshot. -/
def fsDelete (fs : FileSystem) (p : String) : FileSystem :=
  fun q => if q = p then none else fs q

/-- Values held by a cache-entry dict: strings (timestamps, paths), lists of
`(organ_label, obj_path)` pairs, and numbers. -/
inductive EntryVal where
  | str (s : String)
  | objFiles (l : List (ℤ × String))
  | num (q : ℚ)
  deriving DecidableEq

/-- A Python dict with string keys: an insertion-ordered association list. -/
def PyDict (α : Type) : Type := List (String × α)

/-- Python `d.get(k)` / `d[k]` lookup: the value at the first (unique)
occurrence of the key. -/
def pyGet? {α : Type} (d : PyDict α) (k : String) : Option α :=
  (List.find? (fun kv => kv.1 == k) d).map (fun kv => kv.2)

/-- Python `d[k] = v`: replace the value in place if the key is present
(keeping its position), otherwise append the new binding at the end. -/
def pySet {α : Type} (d : PyDict α) (k : String) (v : α) : PyDict α :=
  match d with
  | [] => [(k, v)]
  | kv :: rest => if kv.1 = k then (kv.1, v) :: rest else kv :: pySet rest k v

/-! ## `cache.py`: PredictionCache

The cache state is its in-memory index `cache_data` (hash key → entry dict).
The MD5 digest of `hashlib` is an external primitive and is passed in as a
function `md5` from file bytes to a hex string. Persistence of the index to
`cache_index.json` only mirrors `cache_data` and is not modelled; `is_cached`
and `get` read only the in-memory index and file existence. -/

/-- A cache entry: a Python dict such as
`\x7b"output_file": ..., "obj_files": [...], "timestamp": ...\x7d`. -/
def CacheEntry : Type := PyDict EntryVal

/-- The in-memory cache index `self.cache_data`. -/
def CacheData : Type := PyDict CacheEntry

namespace PredictionCache

/-- `PredictionCache._get_hash`: digest of the bytes of the file at `path`;
`none` when the file does not exist (Python raises FileNotFoundError). -/
def getHash (md5 : List ℕ → String) (fs : FileSystem) (path : String) :
    Option String :=
  (fs path).map md5

/-- The `entry.get("obj_files", [])` access in `is_cached`: the recorded
`(organ_label, obj_path)` list, `[]` when the key is absent. (A value of a
different shape would fail at the Python unpacking; `save` only ever stores
pair lists there.) -/
def entryObjFiles (e : CacheEntry) : List (ℤ × String) :=
  match pyGet? e "obj_files" with
  | some (.objFiles l) => l
  | _ => []

/-- `PredictionCache.is_cached`: hash the image file, return `false` when the
hash is not a key of the index, otherwise `true` exactly when every recorded
obj file still exists. `none` when hashing the image file itself raises. -/
def is_cached (md5 : List ℕ → String) (fs : FileSystem) (cache_data : CacheData)
    (image_path : String) : Option Bool :=
  (getHash md5 fs image_path).map (fun key =>
    match pyGet? cache_data key with
    | none => false
    | some e => (entryObjFiles e).all (fun op => (fs op.2).isSome))

/-- `PredictionCache.get`: `self.cache_data.get(self._get_hash(image_path))`.
The outer `Option` is the possible hashing exception; the inner one is the
`dict.get` result (`none` = Python `None`). -/
def get (md5 : List ℕ → String) (fs : FileSystem) (cache_data : CacheData)
    (image_path : String) : Option (Option CacheEntry) :=
  (getHash md5 fs image_path).map (fun key => pyGet? cache_data key)

/-- `PredictionCache.save`: hash the image file, set `result["timestamp"]` to
the current time in the caller-visible entry dict, and store that same entry
in the index under the hash. Returns the mutated entry together with the new
index (mutation is explicit state passing). -/
def save (md5 : List ℕ → String) (fs : FileSystem) (cache_data : CacheData)
    (image_path : String) (result : CacheEntry) (now : String) :
    Option (CacheEntry × CacheData) :=
  (getHash md5 fs image_path).map (fun key =>
    let r := pySet result "timestamp" (.str now)
    (r, pySet cache_data key r))

end PredictionCache

/-! ## `network.py`: UnityClient -/

/-- One log line: the message text and tag passed to `log_callback`. -/
abbrev LogMsg := String × String

/-- The exception text Python produces when opening a missing mesh file;
only its distinctness from the connection-refused message matters. -/
def fileNotFoundText (path : String) : String :=
  "No such file or directory: " ++ path

/-- The log lines of `UnityClient.send` from a successful connect up to the
start of the mesh loop (`n` = number of meshes announced). -/
def connectLogs (n : ℕ) : List LogMsg :=
  [("   ✓ Connection established!", "success"),
   ("   📋 Sending patient information...", "warning"),
   ("   ✓ Patient information sent", "success"),
   ("   🎮 Sending " ++ toString n ++ " 3D meshes...", "warning")]

/-- The two log lines of the `ConnectionRefusedError` handler. -/
def refusedLogs : List LogMsg :=
  [("❌ VR headset connection refused!", "error"),
   ("   Make sure Unity is running.", "warning")]

/-- The log line of the generic `except Exception` handler, here reached by a
missing mesh file at `path`. -/
def genericErrorLog (path : String) : LogMsg :=
  ("❌ VR headset connection error: " ++ fileNotFoundText path, "error")

/-- Result of `UnityClient.send`: the returned boolean, the bytes written to
the socket before returning, and the log lines emitted. -/
structure SendResult where
  ok : Bool
  sent : List ℕ
  logs : List LogMsg
  deriving DecidableEq

/-- The mesh loop of `UnityClient.send`: for each `(organ_label, obj_path)`
send the packed label, then read the file and send its packed length and raw
bytes. Stops at the first missing file (Python open raises there), returning
the offending path and the bytes sent so far; the `time.sleep(0.1)` pacing
has no effect on the byte stream and is not modelled. -/
def sendMeshes (fs : FileSystem) : List (ℕ × String) → List ℕ → Option String × List ℕ
  | [], acc => (none, acc)
  | (organ_label, obj_path) :: rest, acc =>
    let acc2 := acc ++ packU32 organ_label
    match fs obj_path with
    | none => (some obj_path, acc2)
    | some data => sendMeshes fs rest (acc2 ++ packU32 data.length ++ data)

/-- `UnityClient.send`, modelling the socket by whether connecting succeeds
(`connectOk`) and the JSON serialisation of `patient_data` by its UTF-8 bytes
`json_bytes`. The function is total: every exception of the Python body is
caught by its handlers and becomes `ok := false`. -/
def UnityClient.send (connectOk : Bool) (fs : FileSystem)
    (obj_files : List (ℕ × String)) (json_bytes : List ℕ) : SendResult :=
  if connectOk then
    match sendMeshes fs obj_files
        (packU32 json_bytes.length ++ json_bytes ++ packU32 obj_files.length) with
    | (none, sent) =>
      { ok := true, sent := sent, logs := connectLogs obj_files.length }
    | (some p, sent) =>
      { ok := false, sent := sent,
        logs := connectLogs obj_files.length ++ [genericErrorLog p] }
  else
    { ok := false, sent := [], logs := refusedLogs }

/-- The byte stream prescribed by the spec framing sentence, stated from the
spec words: a 4-byte length of the JSON payload, the JSON bytes, a 4-byte
count N, then for each asset in input order a 4-byte organ label, a 4-byte
byte length of the mesh file contents, and those raw bytes. -/
def deliveryFramingSpec (json_bytes : List ℕ) (meshes : List (ℕ × List ℕ)) :
    List ℕ :=
  packU32 json_bytes.length ++ json_bytes ++ packU32 meshes.length ++
    (meshes.map (fun m => packU32 m.1 ++ packU32 m.2.length ++ m.2)).flatten

/-! ## `volume.py`: label volumes and VolumeCalculator -/

/-- A voxel position (i, j, k). -/
abbrev Pos : Type := ℤ × ℤ × ℤ

/-- A loaded NIfTI label volume: grid dimensions, the voxel labels, and the
voxel spacing in mm (`nii.header.get_zooms()[:3]`). Labels are integers (the
float data of a segmentation file holds integral label values); loading the
file (`nib.load`) is modelled by taking the loaded volume as input. -/
structure LabelVolume where
  dims : ℕ × ℕ × ℕ
  data : Pos → ℤ
  spacing : ℚ × ℚ × ℚ

/-- Position inside the grid. -/
def inGrid (d : ℕ × ℕ × ℕ) (p : Pos) : Prop :=
  0 ≤ p.1 ∧ p.1 < d.1 ∧ 0 ≤ p.2.1 ∧ p.2.1 < d.2.1 ∧ 0 ≤ p.2.2 ∧ p.2.2 < d.2.2

instance (d : ℕ × ℕ × ℕ) (p : Pos) : Decidable (inGrid d p) := by
  unfold inGrid; infer_instance

/-- All grid positions in C-order raster sequence (last index fastest), the
scan order of a numpy array. -/
def rasterPositions (d : ℕ × ℕ × ℕ) : List Pos :=
  (List.range d.1).flatMap (fun (i : ℕ) =>
    (List.range d.2.1).flatMap (fun (j : ℕ) =>
      (List.range d.2.2).map (fun (k : ℕ) => ((i : ℤ), (j : ℤ), (k : ℤ)))))

/-- `np.sum(data == label)`: how many voxels hold the label. -/
def countLabel (v : LabelVolume) (label : ℤ) : ℕ :=
  ((rasterPositions v.dims).filter (fun p => v.data p = label)).length

/-- The binary tumor mask `(data == tumor_label)`. -/
def tumorMask (v : LabelVolume) (tumor_label : ℤ) : Pos → Bool :=
  fun p => v.data p = tumor_label

/-- The six face neighbours of a voxel. -/
def nbrs (p : Pos) : List Pos :=
  [(p.1 + 1, p.2.1, p.2.2), (p.1 - 1, p.2.1, p.2.2),
   (p.1, p.2.1 + 1, p.2.2), (p.1, p.2.1 - 1, p.2.2),
   (p.1, p.2.1, p.2.2 + 1), (p.1, p.2.1, p.2.2 - 1)]

/-- Face adjacency (6-connectivity): the voxels differ by one step along
exactly one axis. -/
def faceAdj (p q : Pos) : Prop :=
  (p.1 - q.1).natAbs + (p.2.1 - q.2.1).natAbs + (p.2.2 - q.2.2).natAbs = 1

instance (p q : Pos) : Decidable (faceAdj p q) := by
  unfold faceAdj; infer_instance

/-- Adjacency of two in-grid mask voxels. -/
def MaskAdj (d : ℕ × ℕ × ℕ) (mask : Pos → Bool) (p q : Pos) : Prop :=
  inGrid d p ∧ inGrid d q ∧ mask p = true ∧ mask q = true ∧ faceAdj p q

/-- The voxels lie in the same connected component of the mask
(reflexive-transitive closure of face adjacency inside the mask). -/
def MaskConn (d : ℕ × ℕ × ℕ) (mask : Pos → Bool) : Pos → Pos → Prop :=
  Relation.ReflTransGen (MaskAdj d mask)

/-- One growth step of a voxel set: add every in-grid mask voxel that is a
face neighbour of the set. -/
def grow (d : ℕ × ℕ × ℕ) (mask : Pos → Bool) (s : Finset Pos) : Finset Pos :=
  s ∪ s.biUnion (fun p =>
    ((nbrs p).filter (fun q => decide (inGrid d q) && mask q)).toFinset)

/-- The connected component of `p` in the mask, by growing the singleton to a
fixpoint; grid-size many steps always suffice. -/
def reach (d : ℕ × ℕ × ℕ) (mask : Pos → Bool) (p : Pos) : Finset Pos :=
  (grow d mask)^[d.1 * d.2.1 * d.2.2] {p}

/-- The mask voxels in raster order. -/
def maskPositions (d : ℕ × ℕ × ℕ) (mask : Pos → Bool) : List Pos :=
  (rasterPositions d).filter mask

/-- The representative of the component of `p`: its raster-first voxel
(falling back to `p` itself for a voxel outside the mask). -/
def repOf (d : ℕ × ℕ × ℕ) (mask : Pos → Bool) (p : Pos) : Pos :=
  ((maskPositions d mask).find? (fun q => decide (q ∈ reach d mask p))).getD p

/-- The raster-first voxels of the components, in raster order. -/
def reps (d : ℕ × ℕ × ℕ) (mask : Pos → Bool) : List Pos :=
  (maskPositions d mask).filter (fun p => decide (repOf d mask p = p))

/-- Models `scipy.ndimage.label` on a 3-D mask with the default structuring
element (6-connectivity, face adjacency): returns the labelled array — the
voxels of the i-th connected component, ordered by raster-first voxel, hold
label i (1-based); background holds 0 — together with the number of
components. -/
def ndimageLabel (d : ℕ × ℕ × ℕ) (mask : Pos → Bool) : (Pos → ℕ) × ℕ :=
  (fun p => if inGrid d p ∧ mask p = true
      then @List.indexOf Pos instBEqOfDecidableEq (repOf d mask p) (reps d mask) + 1
      else 0,
   (reps d mask).length)

/-- `config.LIVER_LABEL`. -/
def LIVER_LABEL : ℤ := 8

/-- `config.TUMOR_LABEL`. -/
def TUMOR_LABEL : ℤ := 9

/-- One entry of the `tumors` list of the result dict. -/
structure TumorEntry where
  id : ℕ
  volume_ml : ℚ
  deriving DecidableEq

/-- The result dict of `VolumeCalculator.calculate`. -/
structure VolumeMetrics where
  liver_volume_ml : ℚ
  tumor_count : ℕ
  tumors : List TumorEntry
  total_tumor_volume_ml : ℚ
  deriving DecidableEq

/-- `VolumeCalculator.calculate` (volume.py): voxel volume from the spacing,
liver volume by voxel count, tumor analysis by connected components of the
tumor mask. The incremental `result` dict mutation of the Python body is the
corresponding pure record construction. -/
def VolumeCalculator.calculate (v : LabelVolume) (liver_label tumor_label : ℤ) :
    VolumeMetrics :=
  let spacing := v.spacing
  let voxel_volume_ml : ℚ := spacing.1 * spacing.2.1 * spacing.2.2 / 1000
  let liver_voxels := countLabel v liver_label
  let liver_volume_ml := round2 (liver_voxels * voxel_volume_ml)
  let tumor_mask := tumorMask v tumor_label
  if 0 < countLabel v tumor_label then
    let labeled_tumors := (ndimageLabel v.dims tumor_mask).1
    let num_tumors := (ndimageLabel v.dims tumor_mask).2
    let tumors := (List.range num_tumors).map (fun i =>
      let tumor_voxels :=
        ((rasterPositions v.dims).filter (fun p => labeled_tumors p = i + 1)).length
      { id := i + 1, volume_ml := round2 (tumor_voxels * voxel_volume_ml) })
    { liver_volume_ml := liver_volume_ml,
      tumor_count := num_tumors,
      tumors := tumors,
      total_tumor_volume_ml :=
        round2 (tumors.foldl (fun acc t => acc + t.volume_ml) 0) }
  else
    { liver_volume_ml := liver_volume_ml, tumor_count := 0, tumors := [],
      total_tumor_volume_ml := 0 }

/-! ## `engine.py`: MeshGenerator -/

/-- `config.ORGAN_LABELS`. -/
def ORGAN_LABELS : List (ℤ × String) :=
  [(0, "background"), (1, "spleen"), (2, "kidneys"), (3, "pancreas"),
   (4, "stomach"), (5, "heart"), (6, "duodenum"), (7, "tumsomething"),
   (8, "liver"), (9, "tumor")]

/-- `ORGAN_LABELS.get(label_int, ...)` with the `organ_<label>` fallback. -/
def organName (label : ℤ) : String :=
  ((ORGAN_LABELS.find? (fun kv => kv.1 = label)).map (fun kv => kv.2)).getD
    ("organ_" ++ toString label)

/-- `np.unique(data)`: the distinct voxel values in ascending order. -/
def npUnique (xs : List ℤ) : List ℤ :=
  xs.toFinset.sort (· ≤ ·)

/-- The output path written for one label
(`os.path.join(output_dir, base_name + organ_name + ".obj")`). -/
def objPath (output_dir base_name : String) (label : ℤ) : String :=
  output_dir ++ "/" ++ base_name ++ "_" ++ organName label ++ ".obj"

/-- `MeshGenerator.generate` (engine.py): compute the distinct non-zero
labels of the volume in ascending order and, for each, attempt isosurface
extraction, smoothing and export inside a try block; a label whose block
raises is logged and skipped. The external extraction pipeline (skimage
`marching_cubes`, trimesh smoothing and export) is modelled by the oracle
`extractOk` telling whether the block succeeds for a label. The base name
of the input file (the Python `base_name`) is taken as given. Returns the
`(label, path)` pairs of the successful labels, in processing order. -/
def MeshGenerator.generate (extractOk : ℤ → Bool) (v : LabelVolume)
    (output_dir base_name : String) : List (ℤ × String) :=
  let labels := (npUnique ((rasterPositions v.dims).map v.data)).filter
    (fun l => l ≠ 0)
  labels.foldl (fun obj_files label =>
    if extractOk label then
      obj_files ++ [(label, objPath output_dir base_name label)]
    else obj_files) []

/-- The distinct values of a list in order of first occurrence. -/
def firstOccurrences : List ℕ → List ℕ
  | [] => []
  | x :: xs => x :: (firstOccurrences xs).filter (fun y => y ≠ x)

/-! ## Concrete example volumes -/

/-- A 1×1×1 volume holding a single liver voxel, spacing (1,1,1) mm. -/
def oneLiverVoxelVolume : LabelVolume :=
  { dims := (1, 1, 1), data := fun _ => LIVER_LABEL, spacing := (1, 1, 1) }

/-- A 1×1×3 volume whose tumor mask is two spatially disjoint single-voxel
blobs, at (0,0,0) and (0,0,2), spacing (1,1,1) mm. -/
def twoBlobVolume : LabelVolume :=
  { dims := (1, 1, 3),
    data := fun p => if p = (0, 0, 0) ∨ p = (0, 0, 2) then TUMOR_LABEL else 0,
    spacing := (1, 1, 1) }

/-- A 1×1×1 volume with a zero spacing component (nonphysical). -/
def zeroSpacingVolume : LabelVolume :=
  { dims := (1, 1, 1), data := fun _ => LIVER_LABEL, spacing := (0, 1, 1) }

/-- A 1×1×1 volume with a negative spacing component (nonphysical). -/
def negSpacingVolume : LabelVolume :=
  { dims := (1, 1, 1), data := fun _ => LIVER_LABEL, spacing := (-1, 1, 1) }

/-- A 1×1×3 volume holding a liver voxel, a tumor voxel and background. -/
def mixedVolume : LabelVolume :=
  { dims := (1, 1, 3),
    data := fun p => if p.2.2 = 0 then LIVER_LABEL
      else if p.2.2 = 1 then TUMOR_LABEL else 0,
    spacing := (1, 1, 1) }

/-! ## Concrete cache fixtures -/

/-- A file system where every path holds an empty file. -/
def exFs : FileSystem := fun _ => some []

/-- A cache entry listing one mesh file. -/
def exEntry : CacheEntry :=
  [("output_file", EntryVal.str "pred.nii"),
   ("obj_files", EntryVal.objFiles [(8, "m.obj")])]

/-! # Theorems -/

/-! ## Rounding -/

/-- `pyRound` is the identity on integers. -/
theorem pyRound_intCast (k : ℤ) : pyRound (k : ℚ) = k := by
  unfold pyRound
  rw [Int.fract_intCast]
  have h2 : (0 : ℚ) ≠ 1/2 := by norm_num
  rw [if_neg h2]
  exact round_intCast k

/-- `round2` fixes every integer multiple of 1/100. -/
theorem round2_int_div_100 (k : ℤ) : round2 ((k : ℚ) / 100) = (k : ℚ) / 100 := by
  unfold round2
  have h : (100 : ℚ) * ((k : ℚ) / 100) = (k : ℚ) := by ring
  rw [h, pyRound_intCast]

/-- Every value of `round2` is an integer multiple of 1/100. -/
theorem round2_eq_div_100 (x : ℚ) : ∃ k : ℤ, round2 x = (k : ℚ) / 100 :=
  ⟨pyRound (100 * x), rfl⟩

/-! ## Python dict lemmas -/

theorem pyGet_cons {α : Type} (a : String) (b : α) (l : PyDict α) (k2 : String) :
    pyGet? ((a, b) :: l) k2 = if a = k2 then some b else pyGet? l k2 := by
  by_cases h : a = k2 <;> simp [pyGet?, List.find?_cons, h]

theorem pyGet_pySet_same {α : Type} (d : PyDict α) (k : String) (v : α) :
    pyGet? (pySet d k v) k = some v := by
  induction d with
  | nil => simp [pySet, pyGet_cons]
  | cons kv rest ih =>
    obtain ⟨a, b⟩ := kv
    by_cases h : a = k
    · simp [pySet, h, pyGet_cons]
    · simp [pySet, h, pyGet_cons, ih]

theorem pyGet_pySet_other {α : Type} (d : PyDict α) (k k2 : String) (v : α)
    (h : k2 ≠ k) : pyGet? (pySet d k v) k2 = pyGet? d k2 := by
  induction d with
  | nil => simp [pySet, pyGet_cons, pyGet?, Ne.symm h]
  | cons kv rest ih =>
    obtain ⟨a, b⟩ := kv
    by_cases hk : a = k
    · subst hk
      simp [pySet, pyGet_cons, Ne.symm h]
    · simp [pySet, hk, pyGet_cons, ih]

/-! ## Evaluation of `calculate` on the concrete volumes -/

/-- `round2` sends `1/1000` (one cubic millimetre in ml) to `0`. -/
theorem round2_thousandth : round2 (1/1000 : ℚ) = 0 := by
  unfold round2 pyRound
  have h100 : (100 : ℚ) * (1/1000) = 1/10 := by norm_num
  rw [h100]
  have hf : Int.fract (1/10 : ℚ) = 1/10 := by norm_num [Int.fract]
  rw [hf]
  rw [if_neg (by norm_num)]
  rw [round_eq]
  norm_num

/-- `calculate` on the single-liver-voxel volume, fully evaluated. -/
theorem calculate_oneLiverVoxel_eval :
    VolumeCalculator.calculate oneLiverVoxelVolume LIVER_LABEL TUMOR_LABEL =
      { liver_volume_ml := 0, tumor_count := 0, tumors := [],
        total_tumor_volume_ml := 0 } := by
  have hl : countLabel oneLiverVoxelVolume LIVER_LABEL = 1 := by decide
  simp only [VolumeCalculator.calculate]
  rw [if_neg (by decide), hl]
  have hs : oneLiverVoxelVolume.spacing = ((1 : ℚ), (1 : ℚ), (1 : ℚ)) := rfl
  rw [hs]
  have : ((1 : ℕ) : ℚ) * ((1 : ℚ) * (1 : ℚ) * (1 : ℚ) / 1000) = 1/1000 := by norm_num
  rw [this, round2_thousandth]

/-- `calculate` on the zero-spacing volume, fully evaluated. -/
theorem calculate_zeroSpacing_eval :
    VolumeCalculator.calculate zeroSpacingVolume LIVER_LABEL TUMOR_LABEL =
      { liver_volume_ml := 0, tumor_count := 0, tumors := [],
        total_tumor_volume_ml := 0 } := by
  have hl : countLabel zeroSpacingVolume LIVER_LABEL = 1 := by decide
  simp only [VolumeCalculator.calculate]
  rw [if_neg (by decide), hl]
  have hs : zeroSpacingVolume.spacing = ((0 : ℚ), (1 : ℚ), (1 : ℚ)) := rfl
  rw [hs]
  have h0 : ((1 : ℕ) : ℚ) * ((0 : ℚ) * (1 : ℚ) * (1 : ℚ) / 1000) = 0 := by norm_num
  rw [h0]
  have hr : round2 (0 : ℚ) = 0 := by
    unfold round2 pyRound
    norm_num
  rw [hr]

/-- `calculate` on the negative-spacing volume, fully evaluated. -/
theorem calculate_negSpacing_eval :
    VolumeCalculator.calculate negSpacingVolume LIVER_LABEL TUMOR_LABEL =
      { liver_volume_ml := 0, tumor_count := 0, tumors := [],
        total_tumor_volume_ml := 0 } := by
  have hl : countLabel negSpacingVolume LIVER_LABEL = 1 := by decide
  simp only [VolumeCalculator.calculate]
  rw [if_neg (by decide), hl]
  have hs : negSpacingVolume.spacing = ((-1 : ℚ), (1 : ℚ), (1 : ℚ)) := rfl
  rw [hs]
  have hneg : ((1 : ℕ) : ℚ) * ((-1 : ℚ) * (1 : ℚ) * (1 : ℚ) / 1000) = -(1/1000) := by
    norm_num
  rw [hneg]
  have hr : round2 (-(1/1000) : ℚ) = 0 := by
    unfold round2 pyRound
    have h100 : (100 : ℚ) * (-(1/1000)) = -(1/10) := by norm_num
    rw [h100]
    have hf : Int.fract (-(1/10) : ℚ) = 9/10 := by
      rw [Int.fract]
      have : ⌊(-(1/10) : ℚ)⌋ = -1 := by norm_num [Int.floor_eq_iff]
      rw [this]
      norm_num
    rw [hf]
    rw [if_neg (by norm_num)]
    rw [round_eq]
    norm_num
  rw [hr]

/-- C2: the claim fails on the code: `VolumeCalculator.calculate` performs no
spacing validation at all (no `InvalidInputError` exists anywhere in the
repository). On volumes with a zero or a negative spacing component it
returns an ordinary metrics record computed from the nonphysical voxel
volume instead of rejecting the input. -/
theorem calculate_accepts_invalid_spacing :
    VolumeCalculator.calculate zeroSpacingVolume LIVER_LABEL TUMOR_LABEL =
      { liver_volume_ml := 0, tumor_count := 0, tumors := [],
        total_tumor_volume_ml := 0 } ∧
    VolumeCalculator.calculate negSpacingVolume LIVER_LABEL TUMOR_LABEL =
      { liver_volume_ml := 0, tumor_count := 0, tumors := [],
        total_tumor_volume_ml := 0 } :=
  ⟨calculate_zeroSpacing_eval, calculate_negSpacing_eval⟩

/-- C3 counterexample: for the volume with exactly one liver voxel and
spacing (1,1,1) mm, `liver_volume_ml` is not 0.001: the code rounds
`1 × 0.001` to 2 decimal places, and `round(0.001, 2) = 0.0`. -/
theorem calculate_one_liver_voxel_ne_0_001 :
    (VolumeCalculator.calculate oneLiverVoxelVolume LIVER_LABEL
        TUMOR_LABEL).liver_volume_ml ≠ 1/1000 := by
  rw [calculate_oneLiverVoxel_eval]
  norm_num

/-- C3 amended: for a volume containing exactly one voxel equal to the liver
label with voxel spacing (1,1,1) mm, `calculate` returns
`liver_volume_ml == 0.0` exactly: the exact volume 0.001 ml is rounded to 2
decimal places. -/
theorem calculate_one_liver_voxel_liver_volume_eq_zero :
    (VolumeCalculator.calculate oneLiverVoxelVolume LIVER_LABEL
        TUMOR_LABEL).liver_volume_ml = 0 := by
  rw [calculate_oneLiverVoxel_eval]

/-! ## Cache claims -/

/-- C9: for an image whose content hash is not a key of the index,
`PredictionCache.get` returns Python `None` (the inner `none`), not an
exception (the outer `some`), even without a prior `is_cached` check. -/
theorem get_unknown_hash_returns_none
    (md5 : List ℕ → String) (fs : FileSystem) (cache_data : CacheData)
    (image_path : String) (bytes : List ℕ)
    (hfile : fs image_path = some bytes)
    (hmiss : pyGet? cache_data (md5 bytes) = none) :
    PredictionCache.get md5 fs cache_data image_path = some none := by
  unfold PredictionCache.get PredictionCache.getHash
  rw [hfile]
  simp [hmiss]

theorem get_unknown_hash_returns_none_witness :
    PredictionCache.get (fun _ => "h") exFs ([] : CacheData) "img" = some none :=
  get_unknown_hash_returns_none (fun _ => "h") exFs [] "img" [] rfl rfl

/-- C10: `PredictionCache.save` stamps the key "timestamp" with the current
time in the entry dict the caller passed (mutation, rendered as the returned
`stamped` entry), leaves every other key of the entry unchanged, and stores
that same stamped entry in the index under the content hash of the file. -/
theorem save_stamps_and_stores_entry
    (md5 : List ℕ → String) (fs : FileSystem) (cache_data : CacheData)
    (image_path : String) (result : CacheEntry) (now : String) (bytes : List ℕ)
    (hfile : fs image_path = some bytes) :
    ∃ stamped index2,
      PredictionCache.save md5 fs cache_data image_path result now =
        some (stamped, index2) ∧
      pyGet? stamped "timestamp" = some (.str now) ∧
      (∀ k, k ≠ "timestamp" → pyGet? stamped k = pyGet? result k) ∧
      pyGet? index2 (md5 bytes) = some stamped := by
  refine ⟨pySet result "timestamp" (.str now),
    pySet cache_data (md5 bytes) (pySet result "timestamp" (.str now)),
    ?_, ?_, ?_, ?_⟩
  · unfold PredictionCache.save PredictionCache.getHash
    rw [hfile]
    rfl
  · exact pyGet_pySet_same result "timestamp" (.str now)
  · exact fun k hk => pyGet_pySet_other result "timestamp" k (.str now) hk
  · exact pyGet_pySet_same cache_data (md5 bytes) _

theorem save_stamps_and_stores_entry_witness :
    ∃ stamped index2,
      PredictionCache.save (fun _ => "h") exFs ([] : CacheData) "img" exEntry
        "t0" = some (stamped, index2) ∧
      pyGet? stamped "timestamp" = some (.str "t0") ∧
      (∀ k, k ≠ "timestamp" → pyGet? stamped k = pyGet? exEntry k) ∧
      pyGet? index2 "h" = some stamped :=
  save_stamps_and_stores_entry (fun _ => "h") exFs [] "img" exEntry "t0" [] rfl

/-- entryObjFiles ignores keys other than "obj_files", so stamping the
timestamp leaves it unchanged. -/
theorem entryObjFiles_pySet_timestamp (e : CacheEntry) (v : EntryVal) :
    PredictionCache.entryObjFiles (pySet e "timestamp" v) =
      PredictionCache.entryObjFiles e := by
  unfold PredictionCache.entryObjFiles
  rw [pyGet_pySet_other e "timestamp" "obj_files" v (by decide)]

/-- C4: immediately after `save`, `is_cached` is true when every mesh file
listed in the entry exists; deleting any single listed mesh file flips it to
false (whole-entry miss); and an unknown content hash gives false. -/
theorem is_cached_roundtrip
    (md5 : List ℕ → String) (fs : FileSystem) (cache_data : CacheData)
    (image_path : String) (result : CacheEntry) (now : String) (bytes : List ℕ)
    (stamped : CacheEntry) (index2 : CacheData)
    (hfile : fs image_path = some bytes)
    (hsave : PredictionCache.save md5 fs cache_data image_path result now =
      some (stamped, index2)) :
    ((∀ op ∈ PredictionCache.entryObjFiles result, (fs op.2).isSome = true) →
      PredictionCache.is_cached md5 fs index2 image_path = some true) ∧
    (∀ op ∈ PredictionCache.entryObjFiles result, op.2 ≠ image_path →
      PredictionCache.is_cached md5 (fsDelete fs op.2) index2 image_path =
        some false) ∧
    (pyGet? cache_data (md5 bytes) = none →
      PredictionCache.is_cached md5 fs cache_data image_path = some false) := by
  have hsave2 : stamped = pySet result "timestamp" (.str now) ∧
      index2 = pySet cache_data (md5 bytes) (pySet result "timestamp" (.str now)) := by
    unfold PredictionCache.save PredictionCache.getHash at hsave
    rw [hfile] at hsave
    simp only [Option.map_some', Option.some.injEq, Prod.mk.injEq] at hsave
    exact ⟨hsave.1.symm, hsave.2.symm⟩
  obtain ⟨hst, hix⟩ := hsave2
  have hobj : PredictionCache.entryObjFiles stamped =
      PredictionCache.entryObjFiles result := by
    rw [hst]
    exact entryObjFiles_pySet_timestamp result (.str now)
  have hkey : pyGet? index2 (md5 bytes) = some stamped := by
    rw [hix, hst]
    exact pyGet_pySet_same cache_data (md5 bytes) _
  refine ⟨?_, ?_, ?_⟩
  · intro hall
    unfold PredictionCache.is_cached PredictionCache.getHash
    rw [hfile]
    simp only [Option.map_some', Option.some.injEq, hkey]
    rw [hobj]
    exact List.all_eq_true.mpr hall
  · intro op hop hne
    unfold PredictionCache.is_cached PredictionCache.getHash
    have hdel : fsDelete fs op.2 image_path = some bytes := by
      unfold fsDelete
      rw [if_neg (Ne.symm hne), hfile]
    rw [hdel]
    simp only [Option.map_some', Option.some.injEq, hkey]
    rw [hobj]
    have hfalse : (fsDelete fs op.2 op.2).isSome = false := by
      unfold fsDelete
      simp
    rcases hb : (PredictionCache.entryObjFiles result).all
        (fun op2 => (fsDelete fs op.2 op2.2).isSome) with _ | _
    · rfl
    · exfalso
      have := List.all_eq_true.mp hb op hop
      rw [hfalse] at this
      exact Bool.false_ne_true this
  · intro hmiss
    unfold PredictionCache.is_cached PredictionCache.getHash
    rw [hfile]
    simp [hmiss]

theorem is_cached_roundtrip_witness :
    PredictionCache.is_cached (fun _ => "h") exFs
      (pySet ([] : CacheData) "h" (pySet exEntry "timestamp" (.str "t0")))
      "img" = some true ∧
    PredictionCache.is_cached (fun _ => "h") (fsDelete exFs "m.obj")
      (pySet ([] : CacheData) "h" (pySet exEntry "timestamp" (.str "t0")))
      "img" = some false ∧
    PredictionCache.is_cached (fun _ => "h") exFs ([] : CacheData) "img" =
      some false := by
  have h := is_cached_roundtrip (fun _ => "h") exFs [] "img" exEntry "t0" []
    (pySet exEntry "timestamp" (.str "t0"))
    (pySet ([] : CacheData) "h" (pySet exEntry "timestamp" (.str "t0")))
    rfl rfl
  exact ⟨h.1 (by decide), h.2.1 (8, "m.obj") (by decide) (by decide),
    h.2.2 rfl⟩

/-! ## Delivery client claims -/

/-- The mesh loop on a list of assets whose files all exist emits, after the
accumulator, exactly one label/length/bytes frame per asset in order. -/
theorem sendMeshes_success (fs : FileSystem) (assets : List (ℕ × String × List ℕ))
    (acc : List ℕ) (hfiles : ∀ a ∈ assets, fs a.2.1 = some a.2.2) :
    sendMeshes fs (assets.map (fun a => (a.1, a.2.1))) acc =
      (none, acc ++
        (assets.map (fun a => packU32 a.1 ++ packU32 a.2.2.length ++ a.2.2)).flatten) := by
  induction assets generalizing acc with
  | nil => simp [sendMeshes]
  | cons a rest ih =>
    obtain ⟨l, p, bs⟩ := a
    have hf : fs p = some bs := hfiles (l, p, bs) (List.mem_cons_self _ _)
    simp only [List.map_cons, sendMeshes, hf]
    rw [ih _ (fun x hx => hfiles x (List.mem_cons_of_mem _ hx))]
    simp [List.append_assoc]

/-- The mesh loop reports no failure iff every listed file exists. -/
theorem sendMeshes_fst_eq_none_iff (fs : FileSystem) (obj_files : List (ℕ × String))
    (acc : List ℕ) :
    (sendMeshes fs obj_files acc).1 = none ↔
      ∀ b ∈ obj_files, (fs b.2).isSome = true := by
  induction obj_files generalizing acc with
  | nil => simp [sendMeshes]
  | cons b rest ih =>
    obtain ⟨l, p⟩ := b
    rcases hfs : fs p with _ | data
    · simp only [sendMeshes, hfs]
      constructor
      · intro h
        exact absurd h (by simp)
      · intro hall
        have := hall (l, p) (List.mem_cons_self _ _)
        rw [hfs] at this
        simp at this
    · simp only [sendMeshes, hfs]
      rw [ih]
      constructor
      · intro hall x hx
        rcases List.mem_cons.mp hx with hx | hx
        · subst hx
          rw [hfs]
          rfl
        · exact hall x hx
      · intro hall x hx
        exact hall x (List.mem_cons_of_mem _ hx)

/-- When the mesh loop reports a failing path, that file is indeed absent. -/
theorem sendMeshes_fst_some (fs : FileSystem) (obj_files : List (ℕ × String))
    (acc : List ℕ) (p : String)
    (h : (sendMeshes fs obj_files acc).1 = some p) : fs p = none := by
  induction obj_files generalizing acc with
  | nil => simp [sendMeshes] at h
  | cons b rest ih =>
    obtain ⟨l, q⟩ := b
    rcases hfs : fs q with _ | data
    · simp only [sendMeshes, hfs, Option.some.injEq] at h
      subst h
      exact hfs
    · simp only [sendMeshes, hfs] at h
      exact ih _ h

/-- C1: a successful `UnityClient.send` emits exactly the framed byte
stream of the spec — `[4B len][JSON bytes][4B count=N]` then, per asset in
input order, `[4B label][4B byteLen][bytes]`, all integers big-endian — and
it returns true only if every frame was sent without error (every listed
mesh file present, connection up). -/
theorem send_emits_spec_framing (connectOk : Bool) (fs : FileSystem)
    (assets : List (ℕ × String × List ℕ)) (json_bytes : List ℕ)
    (hconn : connectOk = true)
    (hfiles : ∀ a ∈ assets, fs a.2.1 = some a.2.2) :
    UnityClient.send connectOk fs (assets.map (fun a => (a.1, a.2.1))) json_bytes =
      { ok := true,
        sent := deliveryFramingSpec json_bytes (assets.map (fun a => (a.1, a.2.2))),
        logs := connectLogs assets.length } ∧
    (∀ obj_files : List (ℕ × String),
      (UnityClient.send connectOk fs obj_files json_bytes).ok = true →
      ∀ b ∈ obj_files, (fs b.2).isSome = true) := by
  subst hconn
  constructor
  · unfold UnityClient.send
    rw [if_pos rfl]
    rw [sendMeshes_success fs assets _ hfiles]
    unfold deliveryFramingSpec
    simp [List.append_assoc, Function.comp_def]
  · intro obj_files hok b hb
    unfold UnityClient.send at hok
    rw [if_pos rfl] at hok
    rcases hsm : sendMeshes fs obj_files
        (packU32 json_bytes.length ++ json_bytes ++ packU32 obj_files.length)
      with ⟨st, sent⟩
    cases st with
    | none =>
      have := (sendMeshes_fst_eq_none_iff fs obj_files
        (packU32 json_bytes.length ++ json_bytes ++ packU32 obj_files.length)).mp
        (by rw [hsm])
      exact this b hb
    | some p =>
      rw [hsm] at hok
      simp at hok

theorem send_emits_spec_framing_witness :
    UnityClient.send true exFs [(8, "m.obj")] [123, 125] =
      { ok := true,
        sent := deliveryFramingSpec [123, 125] [(8, [])],
        logs := connectLogs 1 } :=
  (send_emits_spec_framing true exFs [(8, "m.obj", [])] [123, 125] rfl
    (by decide)).1

/-- C6: `UnityClient.send` is total (every exception of the body is caught by
the two handlers) and reports failure as the value false: with nothing
listening it returns false having logged the connection-refused lines; it
returns false exactly when the connection fails or a listed mesh file is
missing; a missing-file failure logs the generic connection-error line for
the offending path; and the refused-path log output is distinguishable from
the generic-failure log output. -/
theorem send_failure_semantics (fs : FileSystem)
    (obj_files : List (ℕ × String)) (json_bytes : List ℕ) :
    UnityClient.send false fs obj_files json_bytes =
      { ok := false, sent := [], logs := refusedLogs } ∧
    (∀ connectOk,
      (UnityClient.send connectOk fs obj_files json_bytes).ok = false ↔
        (connectOk = false ∨ ∃ b ∈ obj_files, fs b.2 = none)) ∧
    (∀ connectOk, connectOk = true →
      (UnityClient.send connectOk fs obj_files json_bytes).ok = false →
      ∃ p, fs p = none ∧
        (UnityClient.send connectOk fs obj_files json_bytes).logs =
          connectLogs obj_files.length ++ [genericErrorLog p]) ∧
    ("❌ VR headset connection refused!", "error") ∈ refusedLogs ∧
    (∀ n p, refusedLogs ≠ connectLogs n ++ [genericErrorLog p]) := by
  refine ⟨?_, ?_, ?_, by decide, ?_⟩
  · unfold UnityClient.send
    rfl
  · intro connectOk
    cases connectOk with
    | false => simp [UnityClient.send]
    | true =>
      unfold UnityClient.send
      rw [if_pos rfl]
      rcases hsm : sendMeshes fs obj_files
          (packU32 json_bytes.length ++ json_bytes ++ packU32 obj_files.length)
        with ⟨st, sent⟩
      cases st with
      | none =>
        constructor
        · intro h
          exact absurd h (by simp)
        · rintro (h | ⟨b, hb, hnone⟩)
          · exact absurd h (by simp)
          · have := (sendMeshes_fst_eq_none_iff fs obj_files
              (packU32 json_bytes.length ++ json_bytes ++
                packU32 obj_files.length)).mp (by rw [hsm]) b hb
            rw [hnone] at this
            simp at this
      | some p =>
        constructor
        · intro _
          right
          have hmiss : ¬ ∀ b ∈ obj_files, (fs b.2).isSome = true := by
            intro hall
            have := (sendMeshes_fst_eq_none_iff fs obj_files
              (packU32 json_bytes.length ++ json_bytes ++
                packU32 obj_files.length)).mpr hall
            rw [hsm] at this
            simp at this
          push_neg at hmiss
          obtain ⟨b, hb, hnot⟩ := hmiss
          refine ⟨b, hb, ?_⟩
          rcases h2 : fs b.2 with _ | d
          · rfl
          · rw [h2] at hnot
            simp at hnot
        · intro _
          rfl
  · intro connectOk hconn hok
    subst hconn
    unfold UnityClient.send at hok ⊢
    rw [if_pos rfl] at hok ⊢
    rcases hsm : sendMeshes fs obj_files
        (packU32 json_bytes.length ++ json_bytes ++ packU32 obj_files.length)
      with ⟨st, sent⟩
    cases st with
    | none =>
      rw [hsm] at hok
      simp at hok
    | some p =>
      rw [hsm] at hok
      refine ⟨p, sendMeshes_fst_some fs obj_files _ p (by rw [hsm]), ?_⟩
      rfl
  · intro n p h
    have hlen := congrArg List.length h
    simp [refusedLogs, connectLogs] at hlen

theorem send_failure_semantics_witness :
    UnityClient.send false exFs [] [] =
      { ok := false, sent := [], logs := refusedLogs } :=
  (send_failure_semantics exFs [] []).1

/-! ## Mesh generator claim -/

/-- The accumulator loop of `generate` appends exactly the pairs of the
labels the extraction oracle accepts, in list order. -/
theorem generate_foldl_eq (extractOk : ℤ → Bool) (g : ℤ → ℤ × String)
    (labels : List ℤ) (init : List (ℤ × String)) :
    labels.foldl (fun obj_files label =>
        if extractOk label then obj_files ++ [g label] else obj_files) init =
      init ++ (labels.filter extractOk).map g := by
  induction labels generalizing init with
  | nil => simp
  | cons l rest ih =>
    rcases h : extractOk l with _ | _
    · simp only [List.foldl_cons, h, Bool.false_eq_true, if_false,
        List.filter_cons, ih]
    · simp only [List.foldl_cons, h, if_true, List.filter_cons, ih]
      simp

/-- `npUnique` returns a strictly ascending list. -/
theorem npUnique_sorted_lt (xs : List ℤ) : (npUnique xs).Sorted (· < ·) :=
  Finset.sort_sorted_lt xs.toFinset

/-- Membership in `npUnique`. -/
theorem mem_npUnique (xs : List ℤ) (l : ℤ) : l ∈ npUnique xs ↔ l ∈ xs := by
  unfold npUnique
  rw [Finset.mem_sort]
  exact List.mem_toFinset

/-- C7: `MeshGenerator.generate` processes the distinct non-zero labels in
ascending order; a failed extraction is skipped without aborting the rest,
so the result is exactly one `(label, path)` pair per successfully extracted
label, listed in ascending label order; every label that occurs in the
volume, is non-zero and extracts successfully is in the result even when
other labels fail. -/
theorem generate_skips_failed_labels (extractOk : ℤ → Bool) (v : LabelVolume)
    (output_dir base_name : String) :
    MeshGenerator.generate extractOk v output_dir base_name =
      (((npUnique ((rasterPositions v.dims).map v.data)).filter
          (fun l => l ≠ 0)).filter extractOk).map
        (fun l => (l, objPath output_dir base_name l)) ∧
    (MeshGenerator.generate extractOk v output_dir base_name).Pairwise
      (fun a b => a.1 < b.1) ∧
    (∀ l : ℤ, l ∈ (rasterPositions v.dims).map v.data → l ≠ 0 →
      extractOk l = true →
      (l, objPath output_dir base_name l) ∈
        MeshGenerator.generate extractOk v output_dir base_name) ∧
    (∀ lp ∈ MeshGenerator.generate extractOk v output_dir base_name,
      extractOk lp.1 = true ∧ lp.1 ≠ 0 ∧
        lp.1 ∈ (rasterPositions v.dims).map v.data) := by
  have heq : MeshGenerator.generate extractOk v output_dir base_name =
      (((npUnique ((rasterPositions v.dims).map v.data)).filter
          (fun l => l ≠ 0)).filter extractOk).map
        (fun l => (l, objPath output_dir base_name l)) := by
    unfold MeshGenerator.generate
    rw [generate_foldl_eq]
    rfl
  have hsorted : ((((npUnique ((rasterPositions v.dims).map v.data)).filter
      (fun l => l ≠ 0)).filter extractOk)).Sorted (· < ·) :=
    ((npUnique_sorted_lt _).filter _).filter _
  refine ⟨heq, ?_, ?_, ?_⟩
  · rw [heq]
    exact List.Pairwise.map _ (fun a b hab => hab) hsorted
  · intro l hmem hne hok
    rw [heq]
    refine List.mem_map.mpr ⟨l, ?_, rfl⟩
    rw [List.mem_filter, List.mem_filter]
    exact ⟨⟨(mem_npUnique _ _).mpr hmem, by simpa using hne⟩, hok⟩
  · intro lp hlp
    rw [heq] at hlp
    obtain ⟨l, hl, hlp2⟩ := List.mem_map.mp hlp
    rw [List.mem_filter, List.mem_filter] at hl
    subst hlp2
    exact ⟨hl.2, by simpa using hl.1.2, (mem_npUnique _ _).mp hl.1.1⟩

theorem generate_skips_failed_labels_witness :
    (8, objPath "out" "case" 8) ∈
      MeshGenerator.generate (fun l => decide (l ≠ 9)) mixedVolume
        "out" "case" :=
  (generate_skips_failed_labels (fun l => decide (l ≠ 9)) mixedVolume
    "out" "case").2.2.1 8 (by decide) (by decide) (by decide)

/-! ## Connected-component labelling: correctness of the `ndimageLabel`
model. The goal is: two mask voxels receive the same label iff they are
connected under 6-connectivity, the labels of the mask voxels are exactly
1..n in raster order of component discovery, and background gets 0. -/

theorem mem_nbrs (p q : Pos) : q ∈ nbrs p ↔ faceAdj p q := by
  obtain ⟨x, y, z⟩ := p
  obtain ⟨a, b, c⟩ := q
  simp only [nbrs, faceAdj, List.mem_cons, List.not_mem_nil, or_false,
    Prod.mk.injEq]
  omega

theorem faceAdj_symm (p q : Pos) (h : faceAdj p q) : faceAdj q p := by
  obtain ⟨x, y, z⟩ := p
  obtain ⟨a, b, c⟩ := q
  simp only [faceAdj] at h ⊢
  omega

theorem MaskAdj_symm (d : ℕ × ℕ × ℕ) (mask : Pos → Bool) :
    Symmetric (MaskAdj d mask) := by
  rintro p q ⟨h1, h2, h3, h4, h5⟩
  exact ⟨h2, h1, h4, h3, faceAdj_symm p q h5⟩

theorem MaskConn_symm (d : ℕ × ℕ × ℕ) (mask : Pos → Bool) :
    Symmetric (MaskConn d mask) :=
  Relation.ReflTransGen.symmetric (MaskAdj_symm d mask)

/-- Every voxel a mask voxel is connected to is itself a mask voxel (or the
start voxel). -/
theorem MaskConn_endpoint (d : ℕ × ℕ × ℕ) (mask : Pos → Bool) (p q : Pos)
    (h : MaskConn d mask p q) : p = q ∨ (inGrid d q ∧ mask q = true) := by
  induction h with
  | refl => exact Or.inl rfl
  | tail _ hadj _ => exact Or.inr ⟨hadj.2.1, hadj.2.2.2.1⟩

theorem mem_rasterPositions (d : ℕ × ℕ × ℕ) (p : Pos) :
    p ∈ rasterPositions d ↔ inGrid d p := by
  obtain ⟨x, y, z⟩ := p
  simp only [rasterPositions, List.mem_flatMap, List.mem_map, List.mem_range,
    inGrid, Prod.mk.injEq]
  constructor
  · rintro ⟨i, hi, j, hj, k, hk, h1, h2, h3⟩
    omega
  · rintro ⟨h1, h2, h3, h4, h5, h6⟩
    refine ⟨x.toNat, ?_, y.toNat, ?_, z.toNat, ?_, ?_, ?_, ?_⟩ <;> omega

theorem rasterPositions_nodup (d : ℕ × ℕ × ℕ) :
    (rasterPositions d).Nodup := by
  unfold rasterPositions
  rw [List.nodup_flatMap]
  refine ⟨fun i _ => ?_, ?_⟩
  · rw [List.nodup_flatMap]
    refine ⟨fun j _ => ?_, ?_⟩
    · refine (List.nodup_range _).map ?_
      intro a b hab
      simpa using hab
    · refine (List.pairwise_lt_range _).imp ?_
      intro j1 j2 hlt x hx1 hx2
      obtain ⟨k1, _, hk1⟩ := List.mem_map.mp hx1
      obtain ⟨k2, _, hk2⟩ := List.mem_map.mp hx2
      rw [← hk2] at hk1
      have : ((j1 : ℤ) = (j2 : ℤ)) := by
        simpa using congrArg (fun t : Pos => t.2.1) hk1
      omega
  · refine (List.pairwise_lt_range _).imp ?_
    intro i1 i2 hlt x hx1 hx2
    obtain ⟨j1, _, hj1⟩ := List.mem_flatMap.mp hx1
    obtain ⟨j2, _, hj2⟩ := List.mem_flatMap.mp hx2
    obtain ⟨k1, _, hk1⟩ := List.mem_map.mp hj1
    obtain ⟨k2, _, hk2⟩ := List.mem_map.mp hj2
    rw [← hk2] at hk1
    have : ((i1 : ℤ) = (i2 : ℤ)) := by
      simpa using congrArg (fun t : Pos => t.1) hk1
    omega

theorem rasterPositions_length (d : ℕ × ℕ × ℕ) :
    (rasterPositions d).length = d.1 * d.2.1 * d.2.2 := by
  unfold rasterPositions
  rw [List.length_flatMap]
  have hinner : ∀ i : ℕ,
      ((List.range d.2.1).flatMap (fun (j : ℕ) =>
        (List.range d.2.2).map (fun (k : ℕ) =>
          ((i : ℤ), (j : ℤ), (k : ℤ))))).length = d.2.1 * d.2.2 := by
    intro i
    rw [List.length_flatMap]
    have hlen : (List.length ∘ fun (j : ℕ) => (List.range d.2.2).map
        (fun (k : ℕ) => ((i : ℤ), (j : ℤ), (k : ℤ)))) = fun _ => d.2.2 := by
      funext j
      simp
    rw [hlen, List.map_const', List.sum_replicate, List.length_range,
      smul_eq_mul]
  have hlen2 : (List.length ∘ fun (i : ℕ) => (List.range d.2.1).flatMap
      (fun (j : ℕ) => (List.range d.2.2).map (fun (k : ℕ) =>
        ((i : ℤ), (j : ℤ), (k : ℤ))))) = fun _ => d.2.1 * d.2.2 := by
    funext i
    exact hinner i
  rw [hlen2, List.map_const', List.sum_replicate, List.length_range,
    smul_eq_mul, Nat.mul_assoc]

theorem mem_maskPositions (d : ℕ × ℕ × ℕ) (mask : Pos → Bool) (q : Pos) :
    q ∈ maskPositions d mask ↔ inGrid d q ∧ mask q = true := by
  unfold maskPositions
  rw [List.mem_filter, mem_rasterPositions]

theorem mem_grow (d : ℕ × ℕ × ℕ) (mask : Pos → Bool) (s : Finset Pos) (q : Pos) :
    q ∈ grow d mask s ↔
      q ∈ s ∨ ∃ p ∈ s, faceAdj p q ∧ inGrid d q ∧ mask q = true := by
  unfold grow
  simp only [Finset.mem_union, Finset.mem_biUnion, List.mem_toFinset,
    List.mem_filter, Bool.and_eq_true, decide_eq_true_eq, mem_nbrs]

theorem subset_grow (d : ℕ × ℕ × ℕ) (mask : Pos → Bool) (s : Finset Pos) :
    s ⊆ grow d mask s :=
  Finset.subset_union_left

theorem subset_iterate_grow (d : ℕ × ℕ × ℕ) (mask : Pos → Bool) (s : Finset Pos)
    (n : ℕ) : s ⊆ (grow d mask)^[n] s := by
  induction n with
  | zero => simp
  | succ n ih =>
    rw [Function.iterate_succ_apply']
    exact ih.trans (subset_grow d mask _)

/-- Growth from a mask voxel stays within the in-grid mask voxels. -/
theorem iterate_grow_subset (d : ℕ × ℕ × ℕ) (mask : Pos → Bool) (p : Pos)
    (hg : inGrid d p) (hm : mask p = true) (n : ℕ) :
    (grow d mask)^[n] {p} ⊆ (maskPositions d mask).toFinset := by
  induction n with
  | zero =>
    intro q hq
    rw [Function.iterate_zero_apply, Finset.mem_singleton] at hq
    subst hq
    rw [List.mem_toFinset, mem_maskPositions]
    exact ⟨hg, hm⟩
  | succ n ih =>
    rw [Function.iterate_succ_apply']
    intro q hq
    rw [mem_grow] at hq
    rcases hq with hq | ⟨r, _, _, hgq, hmq⟩
    · exact ih hq
    · rw [List.mem_toFinset, mem_maskPositions]
      exact ⟨hgq, hmq⟩

/-- Strict growth at every step forces the cardinality up linearly. -/
theorem card_iterate_of_no_fix (f : Finset Pos → Finset Pos)
    (hsub : ∀ s, s ⊆ f s) (s : Finset Pos) (n : ℕ)
    (h : ∀ i < n, f (f^[i] s) ≠ f^[i] s) :
    s.card + n ≤ (f^[n] s).card := by
  induction n with
  | zero => simp
  | succ n ih =>
    have h1 := ih (fun i hi => h i (Nat.lt_succ_of_lt hi))
    have h2 : f^[n] s ⊂ f (f^[n] s) :=
      ssubset_of_subset_of_ne (hsub _) (Ne.symm (h n (Nat.lt_succ_self n)))
    have h3 := Finset.card_lt_card h2
    rw [Function.iterate_succ_apply']
    omega

/-- Once a fixpoint of the growth is reached it persists. -/
theorem iterate_fix_from (f : Finset Pos → Finset Pos) (s : Finset Pos) (i : ℕ)
    (hf : f (f^[i] s) = f^[i] s) (m : ℕ) (him : i ≤ m) :
    f^[m] s = f^[i] s := by
  obtain ⟨t, rfl⟩ := Nat.exists_eq_add_of_le him
  induction t with
  | zero => rfl
  | succ t ih =>
    have h2 : i + (t + 1) = (i + t) + 1 := by omega
    rw [h2, Function.iterate_succ_apply', ih (by omega), hf]

/-- A growth bounded by a finite universe has a fixpoint within
`B.card` steps. -/
theorem exists_fix_le_card (f : Finset Pos → Finset Pos)
    (hsub : ∀ s, s ⊆ f s) (s B : Finset Pos)
    (hB : ∀ n, f^[n] s ⊆ B) (hs : 1 ≤ s.card) :
    ∃ i ≤ B.card, f (f^[i] s) = f^[i] s := by
  by_contra hno
  push_neg at hno
  have hnofix : ∀ i < B.card + 1, f (f^[i] s) ≠ f^[i] s := by
    intro i hi
    exact hno i (by omega)
  have h1 := card_iterate_of_no_fix f hsub s (B.card + 1) hnofix
  have h2 := Finset.card_le_card (hB (B.card + 1))
  omega

/-- The component set `reach` is a fixpoint of the growth step. -/
theorem grow_reach_fixed (d : ℕ × ℕ × ℕ) (mask : Pos → Bool) (p : Pos)
    (hg : inGrid d p) (hm : mask p = true) :
    grow d mask (reach d mask p) = reach d mask p := by
  unfold reach
  have hB := iterate_grow_subset d mask p hg hm
  have hcard : ((maskPositions d mask).toFinset).card ≤ d.1 * d.2.1 * d.2.2 := by
    calc ((maskPositions d mask).toFinset).card ≤ (maskPositions d mask).length :=
          (maskPositions d mask).toFinset_card_le
      _ ≤ (rasterPositions d).length := List.length_filter_le _ _
      _ = d.1 * d.2.1 * d.2.2 := rasterPositions_length d
  obtain ⟨i, hile, hfix⟩ := exists_fix_le_card (grow d mask) (subset_grow d mask)
    {p} ((maskPositions d mask).toFinset) hB (by simp)
  have h1 : (grow d mask)^[d.1 * d.2.1 * d.2.2] {p} = (grow d mask)^[i] {p} :=
    iterate_fix_from (grow d mask) {p} i hfix _ (le_trans hile hcard)
  rw [h1]
  exact hfix

/-- `reach` computes exactly the connected component: a voxel is in
`reach d mask p` iff it is 6-connected to `p` inside the mask. -/
theorem mem_reach_iff (d : ℕ × ℕ × ℕ) (mask : Pos → Bool) (p : Pos)
    (hg : inGrid d p) (hm : mask p = true) (q : Pos) :
    q ∈ reach d mask p ↔ MaskConn d mask p q := by
  constructor
  · have haux : ∀ n q2, q2 ∈ (grow d mask)^[n] {p} → MaskConn d mask p q2 := by
      intro n
      induction n with
      | zero =>
        intro q2 hq2
        rw [Function.iterate_zero_apply, Finset.mem_singleton] at hq2
        subst hq2
        exact Relation.ReflTransGen.refl
      | succ n ih =>
        intro q2 hq2
        rw [Function.iterate_succ_apply', mem_grow] at hq2
        rcases hq2 with hq2 | ⟨r, hr, hadj, hgq, hmq⟩
        · exact ih q2 hq2
        · have hrT := iterate_grow_subset d mask p hg hm n hr
          rw [List.mem_toFinset, mem_maskPositions] at hrT
          exact Relation.ReflTransGen.tail (ih r hr)
            ⟨hrT.1, hgq, hrT.2, hmq, hadj⟩
    exact haux _ q
  · intro hconn
    induction hconn with
    | refl =>
      exact subset_iterate_grow d mask {p} _ (Finset.mem_singleton_self p)
    | tail _ hadj ih =>
      rw [← grow_reach_fixed d mask p hg hm, mem_grow]
      exact Or.inr ⟨_, ih, hadj.2.2.2.2, hadj.2.1, hadj.2.2.2.1⟩

/-- A mask voxel is in its own component set. -/
theorem self_mem_reach (d : ℕ × ℕ × ℕ) (mask : Pos → Bool) (p : Pos) :
    p ∈ reach d mask p :=
  subset_iterate_grow d mask {p} _ (Finset.mem_singleton_self p)

/-- Connected voxels have the same component set. -/
theorem reach_eq_of_conn (d : ℕ × ℕ × ℕ) (mask : Pos → Bool) (p q : Pos)
    (hgp : inGrid d p) (hmp : mask p = true)
    (hgq : inGrid d q) (hmq : mask q = true)
    (hconn : MaskConn d mask p q) : reach d mask p = reach d mask q := by
  ext r
  rw [mem_reach_iff d mask p hgp hmp, mem_reach_iff d mask q hgq hmq]
  constructor
  · intro h
    exact Relation.ReflTransGen.trans (MaskConn_symm d mask hconn) h
  · intro h
    exact Relation.ReflTransGen.trans hconn h

/-- For a mask voxel the representative search succeeds: `repOf p` is the
raster-first member of the component of `p`, it is itself a mask voxel
connected to `p`. -/
theorem repOf_spec (d : ℕ × ℕ × ℕ) (mask : Pos → Bool) (p : Pos)
    (hg : inGrid d p) (hm : mask p = true) :
    (maskPositions d mask).find?
        (fun q => decide (q ∈ reach d mask p)) = some (repOf d mask p) ∧
      repOf d mask p ∈ maskPositions d mask ∧
      repOf d mask p ∈ reach d mask p := by
  have hex : ∃ x ∈ maskPositions d mask,
      (fun q => decide (q ∈ reach d mask p)) x = true := by
    refine ⟨p, (mem_maskPositions d mask p).mpr ⟨hg, hm⟩, ?_⟩
    simp [self_mem_reach]
  rcases hfind : (maskPositions d mask).find?
      (fun q => decide (q ∈ reach d mask p)) with _ | r
  · rw [List.find?_eq_none] at hfind
    obtain ⟨x, hx1, hx2⟩ := hex
    exact absurd hx2 (by simpa using hfind x hx1)
  · have hrep : repOf d mask p = r := by
      unfold repOf
      rw [hfind]
      rfl
    refine ⟨by rw [hrep], ?_, ?_⟩
    · rw [hrep]
      exact List.mem_of_find?_eq_some hfind
    · rw [hrep]
      have := List.find?_some hfind
      simpa using this

/-- Connected mask voxels share a representative. -/
theorem repOf_eq_of_conn (d : ℕ × ℕ × ℕ) (mask : Pos → Bool) (p q : Pos)
    (hgp : inGrid d p) (hmp : mask p = true)
    (hgq : inGrid d q) (hmq : mask q = true)
    (hconn : MaskConn d mask p q) : repOf d mask p = repOf d mask q := by
  obtain ⟨hfp, _, _⟩ := repOf_spec d mask p hgp hmp
  obtain ⟨hfq, _, _⟩ := repOf_spec d mask q hgq hmq
  rw [reach_eq_of_conn d mask p q hgp hmp hgq hmq hconn] at hfp
  exact Option.some.inj (hfp.symm.trans hfq)

/-- The representative of a mask voxel is a fixpoint of `repOf`. -/
theorem repOf_repOf (d : ℕ × ℕ × ℕ) (mask : Pos → Bool) (p : Pos)
    (hg : inGrid d p) (hm : mask p = true) :
    repOf d mask (repOf d mask p) = repOf d mask p := by
  obtain ⟨_, hmem, hreach⟩ := repOf_spec d mask p hg hm
  have hr := (mem_maskPositions d mask _).mp hmem
  have hconn : MaskConn d mask p (repOf d mask p) :=
    (mem_reach_iff d mask p hg hm _).mp hreach
  exact repOf_eq_of_conn d mask (repOf d mask p) p hr.1 hr.2 hg hm
    (MaskConn_symm d mask hconn)

/-- The representative of a mask voxel is in `reps`. -/
theorem repOf_mem_reps (d : ℕ × ℕ × ℕ) (mask : Pos → Bool) (p : Pos)
    (hg : inGrid d p) (hm : mask p = true) :
    repOf d mask p ∈ reps d mask := by
  obtain ⟨_, hmem, _⟩ := repOf_spec d mask p hg hm
  unfold reps
  rw [List.mem_filter]
  refine ⟨hmem, ?_⟩
  simp [repOf_repOf d mask p hg hm]

/-- `reps` has no duplicates. -/
theorem reps_nodup (d : ℕ × ℕ × ℕ) (mask : Pos → Bool) :
    (reps d mask).Nodup :=
  ((rasterPositions_nodup d).filter _).filter _

/-- Members of `reps` are mask voxels fixed by `repOf`. -/
theorem mem_reps_iff (d : ℕ × ℕ × ℕ) (mask : Pos → Bool) (r : Pos) :
    r ∈ reps d mask ↔
      (inGrid d r ∧ mask r = true) ∧ repOf d mask r = r := by
  unfold reps
  rw [List.mem_filter, mem_maskPositions]
  simp

/-- Every mask voxel is connected to its representative. -/
theorem conn_repOf (d : ℕ × ℕ × ℕ) (mask : Pos → Bool) (p : Pos)
    (hg : inGrid d p) (hm : mask p = true) :
    MaskConn d mask p (repOf d mask p) :=
  (mem_reach_iff d mask p hg hm _).mp (repOf_spec d mask p hg hm).2.2

/-- Zero labels are exactly the voxels outside the in-grid mask. -/
theorem ndimageLabel_zero_iff (d : ℕ × ℕ × ℕ) (mask : Pos → Bool) (p : Pos) :
    (ndimageLabel d mask).1 p = 0 ↔ ¬(inGrid d p ∧ mask p = true) := by
  unfold ndimageLabel
  by_cases h : inGrid d p ∧ mask p = true <;> simp [h]

/-- Two in-grid mask voxels receive the same label iff they are 6-connected
inside the mask. -/
theorem ndimageLabel_eq_iff_conn (d : ℕ × ℕ × ℕ) (mask : Pos → Bool)
    (p q : Pos) (hgp : inGrid d p) (hmp : mask p = true)
    (hgq : inGrid d q) (hmq : mask q = true) :
    (ndimageLabel d mask).1 p = (ndimageLabel d mask).1 q ↔
      MaskConn d mask p q := by
  unfold ndimageLabel
  simp only [if_pos (And.intro hgp hmp), if_pos (And.intro hgq hmq)]
  constructor
  · intro h
    have h2 := Nat.add_right_cancel h
    have heq := (List.indexOf_inj (repOf_mem_reps d mask p hgp hmp)
      (repOf_mem_reps d mask q hgq hmq)).mp h2
    have hcp := conn_repOf d mask p hgp hmp
    have hcq := conn_repOf d mask q hgq hmq
    rw [heq] at hcp
    exact Relation.ReflTransGen.trans hcp (MaskConn_symm d mask hcq)
  · intro hconn
    rw [repOf_eq_of_conn d mask p q hgp hmp hgq hmq hconn]

/-- The label of an in-grid mask voxel lies in `1..n`. -/
theorem ndimageLabel_bounds (d : ℕ × ℕ × ℕ) (mask : Pos → Bool) (p : Pos)
    (hg : inGrid d p) (hm : mask p = true) :
    1 ≤ (ndimageLabel d mask).1 p ∧
      (ndimageLabel d mask).1 p ≤ (ndimageLabel d mask).2 := by
  unfold ndimageLabel
  simp only [if_pos (And.intro hg hm)]
  have := List.indexOf_lt_length.mpr (repOf_mem_reps d mask p hg hm)
  omega

/-- The i-th component representative (raster order) has label `i + 1`; in
particular every label `1..n` is attained. -/
theorem ndimageLabel_get_reps (d : ℕ × ℕ × ℕ) (mask : Pos → Bool) (i : ℕ)
    (h : i < (reps d mask).length) :
    inGrid d ((reps d mask).get ⟨i, h⟩) ∧
      mask ((reps d mask).get ⟨i, h⟩) = true ∧
      (ndimageLabel d mask).1 ((reps d mask).get ⟨i, h⟩) = i + 1 := by
  have hmem : (reps d mask).get ⟨i, h⟩ ∈ reps d mask := List.get_mem _ _ h
  have hprops := (mem_reps_iff d mask _).mp hmem
  refine ⟨hprops.1.1, hprops.1.2, ?_⟩
  unfold ndimageLabel
  simp only [if_pos (And.intro hprops.1.1 hprops.1.2), hprops.2]
  rw [List.get_indexOf (reps_nodup d mask) ⟨i, h⟩]

/-- `reps` lists the component representatives in raster order. -/
theorem reps_sublist_raster (d : ℕ × ℕ × ℕ) (mask : Pos → Bool) :
    (reps d mask).Sublist (rasterPositions d) := by
  have h1 : (reps d mask).Sublist (maskPositions d mask) := by
    unfold reps
    exact List.filter_sublist _
  have h2 : (maskPositions d mask).Sublist (rasterPositions d) := by
    unfold maskPositions
    exact List.filter_sublist _
  exact h1.trans h2

/-! ## Volume metric claims -/

theorem foldl_add_volume (l : List TumorEntry) (a : ℚ) :
    l.foldl (fun acc t => acc + t.volume_ml) a =
      a + (l.map (fun t => t.volume_ml)).sum := by
  induction l generalizing a with
  | nil => simp
  | cons t rest ih => simp [ih, add_assoc]

theorem sum_hundredths (l : List ℚ) (h : ∀ q ∈ l, ∃ k : ℤ, q = (k : ℚ)/100) :
    ∃ m : ℤ, l.sum = (m : ℚ)/100 := by
  induction l with
  | nil => exact ⟨0, by simp⟩
  | cons q rest ih =>
    obtain ⟨k, hk⟩ := h q (List.mem_cons_self _ _)
    obtain ⟨m, hm⟩ := ih (fun x hx => h x (List.mem_cons_of_mem _ hx))
    refine ⟨k + m, ?_⟩
    rw [List.sum_cons, hk, hm]
    push_cast
    ring

/-- In the tumor branch, `tumor_count` and `tumors` come from the
connected-component labelling. -/
theorem calculate_tumor_branch (v : LabelVolume) (liver_label tumor_label : ℤ)
    (hc : 0 < countLabel v tumor_label) :
    (VolumeCalculator.calculate v liver_label tumor_label).tumor_count =
      (ndimageLabel v.dims (tumorMask v tumor_label)).2 ∧
    (VolumeCalculator.calculate v liver_label tumor_label).tumors =
      (List.range (ndimageLabel v.dims (tumorMask v tumor_label)).2).map
        (fun i =>
          ({ id := i + 1,
             volume_ml := round2 ((((rasterPositions v.dims).filter
               (fun p => (ndimageLabel v.dims (tumorMask v tumor_label)).1 p =
                 i + 1)).length : ℚ) *
               (v.spacing.1 * v.spacing.2.1 * v.spacing.2.2 / 1000)) } :
            TumorEntry)) := by
  simp only [VolumeCalculator.calculate, if_pos hc]
  exact ⟨by trivial, by trivial⟩

/-- C5: `calculate` groups the tumor voxels into connected components under
deterministic 6-connectivity: background and non-tumor voxels are labelled
0; two tumor voxels share a label iff they are face-connected inside the
tumor mask; the labels of the tumor voxels are exactly 1..tumor_count, with
label i+1 going to the component whose raster-first voxel is the i-th
representative in raster scan order; the `tumors` entries carry the 1-based
sequential ids 1..tumor_count; and when no voxel equals the tumor label,
`tumor_count = 0` and `tumors` is empty. -/
theorem calculate_tumor_components (v : LabelVolume)
    (liver_label tumor_label : ℤ) :
    (countLabel v tumor_label = 0 →
      (VolumeCalculator.calculate v liver_label tumor_label).tumor_count = 0 ∧
      (VolumeCalculator.calculate v liver_label tumor_label).tumors = []) ∧
    (0 < countLabel v tumor_label →
      ((VolumeCalculator.calculate v liver_label tumor_label).tumors.map
          (fun t => t.id) =
        (List.range (VolumeCalculator.calculate v liver_label
          tumor_label).tumor_count).map (fun i => i + 1)) ∧
      (∀ p q : Pos, inGrid v.dims p → inGrid v.dims q →
        tumorMask v tumor_label p = true → tumorMask v tumor_label q = true →
        ((ndimageLabel v.dims (tumorMask v tumor_label)).1 p =
            (ndimageLabel v.dims (tumorMask v tumor_label)).1 q ↔
          MaskConn v.dims (tumorMask v tumor_label) p q)) ∧
      (∀ p : Pos, inGrid v.dims p → tumorMask v tumor_label p = true →
        1 ≤ (ndimageLabel v.dims (tumorMask v tumor_label)).1 p ∧
        (ndimageLabel v.dims (tumorMask v tumor_label)).1 p ≤
          (VolumeCalculator.calculate v liver_label tumor_label).tumor_count) ∧
      (∀ i : ℕ,
        i < (VolumeCalculator.calculate v liver_label tumor_label).tumor_count →
        ∃ p : Pos, inGrid v.dims p ∧ tumorMask v tumor_label p = true ∧
          (ndimageLabel v.dims (tumorMask v tumor_label)).1 p = i + 1) ∧
      (reps v.dims (tumorMask v tumor_label)).Sublist (rasterPositions v.dims) ∧
      (∀ i (h : i < (reps v.dims (tumorMask v tumor_label)).length),
        (ndimageLabel v.dims (tumorMask v tumor_label)).1
          ((reps v.dims (tumorMask v tumor_label)).get ⟨i, h⟩) = i + 1)) := by
  constructor
  · intro hc
    have hc2 : ¬ 0 < countLabel v tumor_label := by omega
    simp only [VolumeCalculator.calculate, if_neg hc2]
    exact ⟨by trivial, by trivial⟩
  · intro hc
    obtain ⟨hn, ht⟩ := calculate_tumor_branch v liver_label tumor_label hc
    refine ⟨?_, ?_, ?_, ?_, ?_, ?_⟩
    · rw [ht, hn, List.map_map]
      rfl
    · intro p q hgp hgq hmp hmq
      exact ndimageLabel_eq_iff_conn v.dims (tumorMask v tumor_label) p q
        hgp hmp hgq hmq
    · intro p hgp hmp
      rw [hn]
      exact ndimageLabel_bounds v.dims (tumorMask v tumor_label) p hgp hmp
    · intro i hi
      rw [hn] at hi
      have hi2 : i < (reps v.dims (tumorMask v tumor_label)).length := hi
      obtain ⟨h1, h2, h3⟩ :=
        ndimageLabel_get_reps v.dims (tumorMask v tumor_label) i hi2
      exact ⟨_, h1, h2, h3⟩
    · exact reps_sublist_raster v.dims (tumorMask v tumor_label)
    · intro i h
      exact (ndimageLabel_get_reps v.dims (tumorMask v tumor_label) i h).2.2

theorem calculate_tumor_components_witness :
    (VolumeCalculator.calculate twoBlobVolume LIVER_LABEL
        TUMOR_LABEL).tumor_count = 2 ∧
    (VolumeCalculator.calculate twoBlobVolume LIVER_LABEL
        TUMOR_LABEL).tumors.map (fun t => t.id) = [1, 2] ∧
    ¬ MaskConn twoBlobVolume.dims (tumorMask twoBlobVolume TUMOR_LABEL)
        (0, 0, 0) (0, 0, 2) := by
  have hcount : (VolumeCalculator.calculate twoBlobVolume LIVER_LABEL
      TUMOR_LABEL).tumor_count = 2 := by decide
  have h := (calculate_tumor_components twoBlobVolume LIVER_LABEL
    TUMOR_LABEL).2 (by decide)
  refine ⟨hcount, ?_, ?_⟩
  · rw [h.1, hcount]
    rfl
  · intro hconn
    have hiff := h.2.1 (0, 0, 0) (0, 0, 2) (by decide) (by decide)
      (by decide) (by decide)
    have := hiff.mpr hconn
    rw [show (ndimageLabel twoBlobVolume.dims
      (tumorMask twoBlobVolume TUMOR_LABEL)).1 (0, 0, 0) = 1 from by decide,
      show (ndimageLabel twoBlobVolume.dims
        (tumorMask twoBlobVolume TUMOR_LABEL)).1 (0, 0, 2) = 2 from by decide]
      at this
    omega

/-- C8: in every result of `VolumeCalculator.calculate` the reported
`total_tumor_volume_ml` equals the sum of the per-tumor `volume_ml` values
exactly: each part is already rounded to 2 decimals, so their sum is a
whole number of hundredths and the final rounding of the total leaves it
unchanged (the sum-of-rounded-parts behaviour, with zero slack in exact
arithmetic). -/
theorem total_tumor_volume_eq_sum (v : LabelVolume) (liver_label tumor_label : ℤ) :
    (VolumeCalculator.calculate v liver_label tumor_label).total_tumor_volume_ml =
      ((VolumeCalculator.calculate v liver_label tumor_label).tumors.map
        (fun t => t.volume_ml)).sum := by
  by_cases hc : 0 < countLabel v tumor_label
  · simp only [VolumeCalculator.calculate, if_pos hc]
    rw [foldl_add_volume, zero_add]
    have hforms : ∀ q ∈ (((List.range (ndimageLabel v.dims
        (tumorMask v tumor_label)).2).map (fun i =>
          ({ id := i + 1,
             volume_ml := round2 ((((rasterPositions v.dims).filter
               (fun p => (ndimageLabel v.dims (tumorMask v tumor_label)).1 p =
                 i + 1)).length : ℚ) *
               (v.spacing.1 * v.spacing.2.1 * v.spacing.2.2 / 1000)) } :
            TumorEntry))).map (fun t => t.volume_ml)),
        ∃ k : ℤ, q = (k : ℚ)/100 := by
      intro q hq
      rw [List.map_map] at hq
      obtain ⟨i, _, hi⟩ := List.mem_map.mp hq
      rw [← hi]
      exact round2_eq_div_100 _
    obtain ⟨m, hm⟩ := sum_hundredths _ hforms
    rw [hm, round2_int_div_100]
  · simp only [VolumeCalculator.calculate, if_neg hc]
    simp

end SurgScan
